import Mathlib

/-!
Verification development for the go-dadjokes-api service (src/dadjokes.go).

The repository is a small HTTP service with two handlers (`getJoke` for
GET /random and `saveJoke` for POST /write) and a per-IP rate limiter:
a mutex-guarded map from the client address to a token-bucket limiter plus
a last-seen timestamp, with a background goroutine (`cleanupVisitors`)
evicting stale entries.

The embedding below is shallow and executable:
  * the database is an external collaborator, so the handlers are modelled
    as pure functions of the store's outcome (`QueryResult` / `ExecResult`);
  * request times are rationals (seconds); the Go `time.Time` values that
    appear in `Joke.date` are opaque timestamps, also modelled as rationals;
  * the mutex makes each `getVisitor`-plus-`Allow` critical section and each
    cleanup pass atomic, so the concurrent system is modelled as a step
    relation whose steps are those atomic operations.
-/

set_option maxRecDepth 4000

namespace DadJokes

/-- Joke record: `type Joke struct { Id int; Date time.Time; Author string;
Text string }` with JSON tags id / entry_date / author / joke_text.
Go's `time.Time` is modelled as a rational timestamp. -/
structure Joke where
  id : Int
  date : ℚ
  author : String
  text : String
  deriving DecidableEq, Repr

/-- Response body as written by the handlers: nothing at all (the 429 path
only writes a header), a `{"message": ...}` object, or a Joke encoded as
JSON. -/
inductive Body where
  | empty : Body
  | message : String → Body
  | joke : Joke → Body
  deriving DecidableEq, Repr

/-- HTTP response: status code plus body. -/
structure Response where
  status : Nat
  body : Body
  deriving DecidableEq, Repr

/-- Outcome of the `SELECT ... ORDER BY RANDOM() LIMIT 1` row query in
`getJoke`: a row, `sql.ErrNoRows`, or some other error with its text. -/
inductive QueryResult where
  | row : Joke → QueryResult
  | noRows : QueryResult
  | failure : String → QueryResult
  deriving DecidableEq, Repr

/-- What `getJoke` produces: the HTTP response together with what it wrote
to the server log (`log.Printf`), if anything. -/
structure GetJokeOutput where
  response : Response
  logged : Option String
  deriving DecidableEq, Repr

/-- Shallow embedding of `getJoke` (src/dadjokes.go lines 116-133) as a
function of the store's outcome.  `sql.ErrNoRows` yields 404 with the fixed
message; any other error is logged and yields 500 with the generic message;
a row yields 200 with the Joke encoded in the body. -/
def getJoke : QueryResult → GetJokeOutput
  | QueryResult.row j =>
      ⟨⟨200, Body.joke j⟩, none⟩
  | QueryResult.noRows =>
      ⟨⟨404, Body.message "No jokes found in the database."⟩, none⟩
  | QueryResult.failure e =>
      ⟨⟨500, Body.message "An internal server error occurred."⟩,
        some ("Error getting joke: " ++ e)⟩

/-- Outcome of decoding the request body into a `Joke`
(`json.NewDecoder(request.Body).Decode(&joke)`): the decoded record, or an
error with its text.  Fields absent from the JSON keep Go zero values
(id 0, zero time). -/
inductive DecodeResult where
  | ok : Joke → DecodeResult
  | fail : String → DecodeResult
  deriving DecidableEq, Repr

/-- Outcome of the `INSERT INTO jokes ...` statement in `saveJoke`. -/
inductive ExecResult where
  | ok : ExecResult
  | fail : String → ExecResult
  deriving DecidableEq, Repr

/-- What `saveJoke` produces: the HTTP response, what it logged, and the
`(author, joke_text)` pair handed to the INSERT when the insert was
executed (`none` when the store was never touched). -/
structure SaveJokeOutput where
  response : Response
  logged : Option String
  inserted : Option (String × String)
  deriving DecidableEq, Repr

/-- Shallow embedding of `saveJoke` (src/dadjokes.go lines 135-177) as a
function of the decode outcome and of the store's reaction to an insert.
Go's `len` on a string counts bytes, hence `String.utf8ByteSize`.  The
validation checks appear in exactly the source order; `dbExec` is invoked
only after all four pass.  On success the handler re-encodes the very
`joke` value it decoded — including its id and date fields. -/
def saveJoke (d : DecodeResult) (dbExec : String → String → ExecResult) :
    SaveJokeOutput :=
  match d with
  | DecodeResult.fail e => ⟨⟨400, Body.message e⟩, none, none⟩
  | DecodeResult.ok joke =>
      if joke.author = "" then
        ⟨⟨400, Body.message "Author cannot be empty."⟩, none, none⟩
      else if 255 < joke.author.utf8ByteSize then
        ⟨⟨400, Body.message "Author exceeds maximum length of 255 characters."⟩,
          none, none⟩
      else if joke.text = "" then
        ⟨⟨400, Body.message "Joke text cannot be empty."⟩, none, none⟩
      else if 2000 < joke.text.utf8ByteSize then
        ⟨⟨400, Body.message "Joke text exceeds maximum length of 2000 characters."⟩,
          none, none⟩
      else
        match dbExec joke.author joke.text with
        | ExecResult.fail e =>
            ⟨⟨500, Body.message "An internal server error occurred."⟩,
              some ("Error saving joke: " ++ e), some (joke.author, joke.text)⟩
        | ExecResult.ok =>
            ⟨⟨201, Body.joke joke⟩, none, some (joke.author, joke.text)⟩

/-- Token-bucket limiter state, modelled from the spec: the actual limiter,
`golang.org/x/time/rate.Limiter` built by `rate.NewLimiter(1, 3)`, is an
external dependency whose source is not part of this repository.  The spec
fixes its semantics: capacity C = 3 tokens, refill rate R = 1 token/second,
continuous (not stepped) refill — tokens accumulate as elapsed-time × R
since the last interaction, capped at C; `Allow` consumes one token when at
least one is available, else rejects immediately.  Times are rational
seconds. -/
structure Limiter where
  tokens : ℚ
  last : ℚ
  deriving DecidableEq, Repr

/-- Modelled from the spec: continuous refill at 1 token/second since the
last interaction, capped at the capacity 3. -/
def refill (l : Limiter) (now : ℚ) : Limiter :=
  ⟨min 3 (l.tokens + (now - l.last)), now⟩

/-- Modelled from the spec: `Allow` refills, then consumes one token iff one
whole token is available; rejection is immediate, with no partial
consumption. -/
def allow (l : Limiter) (now : ℚ) : Bool × Limiter :=
  if 1 ≤ (refill l now).tokens then
    (true, ⟨(refill l now).tokens - 1, now⟩)
  else
    (false, refill l now)

/-- Modelled from the spec: `rate.NewLimiter(1, 3)` yields a fresh bucket
that grants a full burst of 3 immediately, i.e. it starts full. -/
def newLimiter (now : ℚ) : Limiter := ⟨3, now⟩

/-- Visitor entry: `type visitor struct { limiter *rate.Limiter;
lastSeen time.Time }`. -/
structure Visitor where
  limiter : Limiter
  lastSeen : ℚ
  deriving DecidableEq, Repr

/-- The `visitors` map, `map[string]*visitor`, modelled as an association
list from the client address string to its visitor entry. -/
abbrev Registry := List (String × Visitor)

/-- Map lookup `visitors[ip]`. -/
def lookupV : Registry → String → Option Visitor
  | [], _ => none
  | (k, v) :: rest, ip => if k = ip then some v else lookupV rest ip

/-- Replacing the visitor entry stored under a key (the Go code mutates the
entry in place through its pointer). -/
def updateEntry (reg : Registry) (ip : String) (v : Visitor) : Registry :=
  reg.map fun p => if p.1 = ip then (p.1, v) else p

/-- Writing a new limiter state into a visitor entry while keeping its
lastSeen timestamp (the effect of `limiter.Allow()` through the shared
pointer returned by `getVisitor`). -/
def setLimiter (reg : Registry) (ip : String) (l : Limiter) : Registry :=
  reg.map fun p => if p.1 = ip then (p.1, ⟨l, p.2.lastSeen⟩) else p

/-- Shallow embedding of `getVisitor` (src/dadjokes.go lines 68-83).  The
whole body runs under `mu`, so it is one atomic step: look up the entry;
if absent, create it with a fresh limiter and lastSeen = now; otherwise
update its lastSeen to now.  Returns the (shared) limiter together with the
updated map. -/
def getVisitor (reg : Registry) (ip : String) (now : ℚ) : Limiter × Registry :=
  match lookupV reg ip with
  | none => (newLimiter now, (ip, ⟨newLimiter now, now⟩) :: reg)
  | some v => (v.limiter, updateEntry reg ip ⟨v.limiter, now⟩)

/-- The admission decision of `rateLimitMiddleware` (src/dadjokes.go lines
103-114): `getVisitor(ip)` followed by `limiter.Allow()`.  The `Allow` call
mutates the visitor's limiter through the pointer, modelled by writing the
post-`allow` limiter state back into the entry. -/
def rateLimitCheck (reg : Registry) (ip : String) (now : ℚ) : Bool × Registry :=
  ((allow (getVisitor reg ip now).1 now).1,
    setLimiter (getVisitor reg ip now).2 ip (allow (getVisitor reg ip now).1 now).2)

/-- Shallow embedding of `rateLimitMiddleware`: if the limiter rejects, the
handler writes header 429 and returns — no body; otherwise the wrapped
handler produces the response. -/
def rateLimitMiddleware (reg : Registry) (ip : String) (now : ℚ)
    (next : Response) : Response × Registry :=
  match rateLimitCheck reg ip now with
  | (true, reg') => (next, reg')
  | (false, reg') => (⟨429, Body.empty⟩, reg')

/-- Serving a sequence of requests from one client through the middleware,
returning the list of responses. -/
def serveSeq (reg : Registry) (ip : String) (next : Response) :
    List ℚ → List Response
  | [] => []
  | t :: ts =>
      (rateLimitMiddleware reg ip t next).1 ::
        serveSeq (rateLimitMiddleware reg ip t next).2 ip next ts

/-- Running a sequence of `Allow` calls against a single limiter, returning
the list of decisions. -/
def allowRun (l : Limiter) : List ℚ → List Bool
  | [] => []
  | t :: ts => (allow l t).1 :: allowRun (allow l t).2 ts

/-- Shallow embedding of one pass of `cleanupVisitors` (src/dadjokes.go
lines 87-101): under `mu`, delete every entry whose lastSeen lies more than
3 minutes (180 seconds) in the past.  The enclosing forever-loop sleeps one
minute between passes; a pass itself is the atomic locked section modelled
here. -/
def cleanupVisitorsTick (reg : Registry) (now : ℚ) : Registry :=
  reg.filter fun p => !decide (180 < now - p.2.lastSeen)

/-- Atomic steps of the concurrent system: each `rateLimitCheck` critical
section (any client address, any time) and each cleanup pass runs under the
single mutex `mu`, so an execution is an arbitrary interleaving of these
atomic steps. -/
inductive Step : Registry → Registry → Prop where
  | request (reg : Registry) (ip : String) (now : ℚ) :
      Step reg (rateLimitCheck reg ip now).2
  | cleanup (reg : Registry) (now : ℚ) :
      Step reg (cleanupVisitorsTick reg now)

/-- Registry states reachable from the initial empty map
(`var visitors = make(map[string]*visitor)`). -/
def Reachable (reg : Registry) : Prop :=
  Relation.ReflTransGen Step [] reg

/-! ## Theorems about the Joke Store Gateway -/

/-- C4.  `getJoke` against an empty store returns 404 with body
`{"message": "No jokes found in the database."}`; on any other store
failure it returns 500 with the generic body, logging the underlying error,
whose text never influences the client response; on success it returns 200
with the record (id, entry_date, author, joke_text). -/
theorem getJoke_responses :
    (∀ j : Joke, getJoke (QueryResult.row j) = ⟨⟨200, Body.joke j⟩, none⟩) ∧
    getJoke QueryResult.noRows =
      ⟨⟨404, Body.message "No jokes found in the database."⟩, none⟩ ∧
    (∀ e : String,
      getJoke (QueryResult.failure e) =
        ⟨⟨500, Body.message "An internal server error occurred."⟩,
          some ("Error getting joke: " ++ e)⟩) ∧
    (∀ e e' : String,
      (getJoke (QueryResult.failure e)).response =
        (getJoke (QueryResult.failure e')).response) := by
  refine ⟨fun j => rfl, rfl, fun e => rfl, fun e e' => rfl⟩

/-- C1.  The claim says the 201 response carries the store-assigned id and
entry_date, in particular a non-zero id.  The code does not: `saveJoke`
re-encodes the struct it decoded from the request, and `db.Exec` never
reports the assigned id back.  For the claim's own input — a submission
`{"author": "Jane", "joke_text": "Valid text"}`, which decodes to a Joke
with Go zero values id = 0 and zero time — the 201 body therefore carries
id 0 and the zero entry_date, contradicting the claimed non-zero id (and
the response example in the repository README). -/
theorem saveJoke_echoes_zero_id :
    saveJoke (DecodeResult.ok ⟨0, 0, "Jane", "Valid text"⟩)
        (fun _ _ => ExecResult.ok) =
      ⟨⟨201, Body.joke ⟨0, 0, "Jane", "Valid text"⟩⟩, none,
        some ("Jane", "Valid text")⟩ := by
  decide

/-- C3.  The validation checks of `saveJoke` run in the source order —
empty author, author longer than 255 bytes, empty text, text longer than
2000 bytes — the first violation yielding a 400 response with its specific
message; and whenever the response is a 400, no insert was executed against
the store. -/
theorem saveJoke_validation_order (j : Joke)
    (f : String → String → ExecResult) :
    (j.author = "" →
      saveJoke (DecodeResult.ok j) f =
        ⟨⟨400, Body.message "Author cannot be empty."⟩, none, none⟩) ∧
    (j.author ≠ "" → 255 < j.author.utf8ByteSize →
      saveJoke (DecodeResult.ok j) f =
        ⟨⟨400, Body.message "Author exceeds maximum length of 255 characters."⟩,
          none, none⟩) ∧
    (j.author ≠ "" → j.author.utf8ByteSize ≤ 255 → j.text = "" →
      saveJoke (DecodeResult.ok j) f =
        ⟨⟨400, Body.message "Joke text cannot be empty."⟩, none, none⟩) ∧
    (j.author ≠ "" → j.author.utf8ByteSize ≤ 255 → j.text ≠ "" →
        2000 < j.text.utf8ByteSize →
      saveJoke (DecodeResult.ok j) f =
        ⟨⟨400, Body.message "Joke text exceeds maximum length of 2000 characters."⟩,
          none, none⟩) ∧
    (∀ d : DecodeResult, (saveJoke d f).response.status = 400 →
      (saveJoke d f).inserted = none) := by
  refine ⟨?_, ?_, ?_, ?_, ?_⟩
  · intro h1
    simp [saveJoke, h1]
  · intro h1 h2
    simp [saveJoke, h1, h2, Nat.not_le.mpr h2]
  · intro h1 h2 h3
    simp [saveJoke, h1, Nat.not_lt.mpr h2, h3]
  · intro h1 h2 h3 h4
    simp [saveJoke, h1, Nat.not_lt.mpr h2, h3, h4]
  · intro d
    match d with
    | DecodeResult.fail e => intro _; rfl
    | DecodeResult.ok jk =>
      by_cases h1 : jk.author = ""
      · intro _; simp [saveJoke, h1]
      · by_cases h2 : 255 < jk.author.utf8ByteSize
        · intro _; simp [saveJoke, h1, h2]
        · by_cases h3 : jk.text = ""
          · intro _; simp [saveJoke, h1, h2, h3]
          · by_cases h4 : 2000 < jk.text.utf8ByteSize
            · intro _; simp [saveJoke, h1, h2, h3, h4]
            · intro habs
              exfalso
              revert habs
              simp only [saveJoke, h1, h2, h3, h4, if_neg, if_pos]
              match hf : f jk.author jk.text with
              | ExecResult.ok => simp [hf]
              | ExecResult.fail e => simp [hf]

/-- UTF-8 byte length of a repeated character, used to evaluate the byte
length of the long concrete inputs without deep kernel reduction. -/
lemma utf8Len_replicate (n : Nat) (c : Char) :
    String.utf8Len (List.replicate n c) = n * c.utf8Size := by
  induction n with
  | zero => simp
  | succ n ih => rw [List.replicate_succ, String.utf8Len_cons, ih, Nat.succ_mul]

/-- Witness for C3 at the claim's four concrete inputs (author of 256 bytes
and text of 2001 bytes for the length cases), plus the no-insert clause at
the empty-author input. -/
theorem saveJoke_validation_order_witness :
    (saveJoke (DecodeResult.ok ⟨0, 0, "", "joke"⟩) (fun _ _ => ExecResult.ok) =
      ⟨⟨400, Body.message "Author cannot be empty."⟩, none, none⟩) ∧
    (saveJoke (DecodeResult.ok ⟨0, 0, String.mk (List.replicate 256 'A'), "joke"⟩)
        (fun _ _ => ExecResult.ok) =
      ⟨⟨400, Body.message "Author exceeds maximum length of 255 characters."⟩,
        none, none⟩) ∧
    (saveJoke (DecodeResult.ok ⟨0, 0, "ok", ""⟩) (fun _ _ => ExecResult.ok) =
      ⟨⟨400, Body.message "Joke text cannot be empty."⟩, none, none⟩) ∧
    (saveJoke (DecodeResult.ok ⟨0, 0, "ok", String.mk (List.replicate 2001 'T')⟩)
        (fun _ _ => ExecResult.ok) =
      ⟨⟨400, Body.message "Joke text exceeds maximum length of 2000 characters."⟩,
        none, none⟩) ∧
    (saveJoke (DecodeResult.ok ⟨0, 0, "", "joke"⟩)
        (fun _ _ => ExecResult.ok)).inserted = none := by
  have hA : (String.mk (List.replicate 256 'A')).utf8ByteSize = 256 := by
    rw [String.utf8ByteSize_mk, utf8Len_replicate,
      show ('A').utf8Size = 1 from rfl]
  have hT : (String.mk (List.replicate 2001 'T')).utf8ByteSize = 2001 := by
    rw [String.utf8ByteSize_mk, utf8Len_replicate,
      show ('T').utf8Size = 1 from rfl]
  refine ⟨?_, ?_, ?_, ?_, ?_⟩
  · exact (saveJoke_validation_order ⟨0, 0, "", "joke"⟩
      (fun _ _ => ExecResult.ok)).1 rfl
  · exact (saveJoke_validation_order
      ⟨0, 0, String.mk (List.replicate 256 'A'), "joke"⟩
      (fun _ _ => ExecResult.ok)).2.1
      (fun h => by
        have h2 : String.mk (List.replicate 256 'A') = "" := h
        rw [h2] at hA
        exact absurd hA (by decide))
      (by show 255 < (String.mk (List.replicate 256 'A')).utf8ByteSize
          rw [hA]; decide)
  · exact (saveJoke_validation_order ⟨0, 0, "ok", ""⟩
      (fun _ _ => ExecResult.ok)).2.2.1 (by decide) (by decide) rfl
  · exact (saveJoke_validation_order
      ⟨0, 0, "ok", String.mk (List.replicate 2001 'T')⟩
      (fun _ _ => ExecResult.ok)).2.2.2.1 (by decide) (by decide)
      (fun h => by
        have h2 : String.mk (List.replicate 2001 'T') = "" := h
        rw [h2] at hT
        exact absurd hT (by decide))
      (by show 2000 < (String.mk (List.replicate 2001 'T')).utf8ByteSize
          rw [hT]; decide)
  · exact (saveJoke_validation_order ⟨0, 0, "", "joke"⟩
      (fun _ _ => ExecResult.ok)).2.2.2.2 (DecodeResult.ok ⟨0, 0, "", "joke"⟩)
      (by decide)

/-- C10.  Whatever id and entry_date the client put in the submitted JSON
are decoded into the Joke and echoed back unchanged in the 201 body: the
submit path never replaces them with store-assigned values. -/
theorem saveJoke_echoes_client_fields (j : Joke)
    (f : String → String → ExecResult)
    (h1 : j.author ≠ "") (h2 : j.author.utf8ByteSize ≤ 255)
    (h3 : j.text ≠ "") (h4 : j.text.utf8ByteSize ≤ 2000)
    (h5 : f j.author j.text = ExecResult.ok) :
    (saveJoke (DecodeResult.ok j) f).response = ⟨201, Body.joke j⟩ ∧
    (saveJoke (DecodeResult.ok j) f).response.body = Body.joke j := by
  constructor
  · simp [saveJoke, h1, Nat.not_lt.mpr h2, h3, Nat.not_lt.mpr h4, h5]
  · simp [saveJoke, h1, Nat.not_lt.mpr h2, h3, Nat.not_lt.mpr h4, h5]

/-- Witness for C10: a submission carrying client-supplied id 42 and
entry_date 77 comes back with exactly those values. -/
theorem saveJoke_echoes_client_fields_witness :
    (saveJoke (DecodeResult.ok ⟨42, 77, "Jane", "a joke"⟩)
        (fun _ _ => ExecResult.ok)).response =
      ⟨201, Body.joke ⟨42, 77, "Jane", "a joke"⟩⟩ ∧
    (saveJoke (DecodeResult.ok ⟨42, 77, "Jane", "a joke"⟩)
        (fun _ _ => ExecResult.ok)).response.body =
      Body.joke ⟨42, 77, "Jane", "a joke"⟩ :=
  saveJoke_echoes_client_fields ⟨42, 77, "Jane", "a joke"⟩
    (fun _ _ => ExecResult.ok) (by decide) (by decide) (by decide) (by decide)
    rfl

/-! ## Token-bucket lemmas -/

lemma refill_tokens (l : Limiter) (t : ℚ) :
    (refill l t).tokens = min 3 (l.tokens + (t - l.last)) := rfl

lemma allow_fst_true (l : Limiter) (t : ℚ) :
    (allow l t).1 = true ↔ 1 ≤ (refill l t).tokens := by
  by_cases h : (1:ℚ) ≤ (refill l t).tokens
  · simp [allow, h]
  · simp [allow, h]

lemma allow_state_true (l : Limiter) (t : ℚ)
    (h : 1 ≤ (refill l t).tokens) :
    allow l t = (true, ⟨(refill l t).tokens - 1, t⟩) := by
  simp [allow, h]

lemma allow_state_false (l : Limiter) (t : ℚ)
    (h : ¬ 1 ≤ (refill l t).tokens) :
    allow l t = (false, refill l t) := by
  simp [allow, h]

/-! ## Theorems about the token bucket (C6, C7) -/

/-- C6.  A bucket that has just rejected (0 tokens, last interaction at
`t0`), after waiting `d` seconds with 1 ≤ d < 2, holds exactly `d` tokens —
continuous refill at 1 token/second, not stepped — so exactly one whole
token is available: the next request is admitted, and any further request
before `t0 + 2` (in particular an immediate one) is rejected. -/
theorem refill_restores_single_token (t0 d t2 : ℚ)
    (h1 : 1 ≤ d) (h2 : d < 2) (_h3 : t0 + d ≤ t2) (h4 : t2 < t0 + 2) :
    (refill ⟨0, t0⟩ (t0 + d)).tokens = d ∧
    (allow ⟨0, t0⟩ (t0 + d)).1 = true ∧
    (allow (allow ⟨0, t0⟩ (t0 + d)).2 t2).1 = false := by
  have e1 : (refill ⟨0, t0⟩ (t0 + d)).tokens = d := by
    rw [refill_tokens]
    show min 3 (0 + (t0 + d - t0)) = d
    rw [show (0 + (t0 + d - t0) : ℚ) = d from by ring]
    exact min_eq_right (by linarith)
  refine ⟨e1, (allow_fst_true _ _).mpr (by rw [e1]; exact h1), ?_⟩
  have hs : allow ⟨0, t0⟩ (t0 + d) = (true, ⟨d - 1, t0 + d⟩) := by
    rw [allow_state_true _ _ (by rw [e1]; exact h1), e1]
  rw [hs]
  have e2 : (refill ⟨d - 1, t0 + d⟩ t2).tokens = t2 - t0 - 1 := by
    rw [refill_tokens]
    show min 3 (d - 1 + (t2 - (t0 + d))) = t2 - t0 - 1
    rw [show (d - 1 + (t2 - (t0 + d)) : ℚ) = t2 - t0 - 1 from by ring]
    exact min_eq_right (by linarith)
  have hn : ¬ (1:ℚ) ≤ (refill ⟨d - 1, t0 + d⟩ t2).tokens := by
    rw [e2]; intro hc; linarith
  simp [allow, hn]

/-- Witness for C6 at t0 = 0, d = 1, t2 = 1. -/
theorem refill_restores_single_token_witness :
    (refill ⟨0, 0⟩ (0 + 1)).tokens = 1 ∧
    (allow ⟨0, 0⟩ (0 + 1)).1 = true ∧
    (allow (allow ⟨0, 0⟩ (0 + 1)).2 1).1 = false :=
  refill_restores_single_token 0 1 1 (by norm_num) (by norm_num)
    (by norm_num) (by norm_num)

/-- C7.  Refill never pushes a bucket above the capacity 3, whatever the
idle duration encoded in the limiter state; consequently four back-to-back
requests with no intervening refill time (all at the same instant) are
never all admitted — at most 3 are. -/
theorem tokens_never_exceed_capacity (l : Limiter) (t : ℚ) :
    (refill l t).tokens ≤ 3 ∧
    allowRun l [t, t, t, t] ≠ [true, true, true, true] := by
  constructor
  · rw [refill_tokens]; exact min_le_left _ _
  · intro hrun
    simp only [allowRun, List.cons.injEq, and_true] at hrun
    obtain ⟨h1, h2, h3, h4⟩ := hrun
    have hM3 : (refill l t).tokens ≤ 3 := by
      rw [refill_tokens]; exact min_le_left _ _
    have hge1 : 1 ≤ (refill l t).tokens := (allow_fst_true l t).mp h1
    have hs1 : allow l t = (true, ⟨(refill l t).tokens - 1, t⟩) :=
      allow_state_true l t hge1
    rw [hs1] at h2 h3 h4
    have e2 : (refill ⟨(refill l t).tokens - 1, t⟩ t).tokens =
        (refill l t).tokens - 1 := by
      rw [refill_tokens]
      show min 3 ((refill l t).tokens - 1 + (t - t)) = (refill l t).tokens - 1
      rw [show ((refill l t).tokens - 1 + (t - t) : ℚ) =
        (refill l t).tokens - 1 from by ring]
      exact min_eq_right (by linarith)
    have hge2 : 1 ≤ (refill l t).tokens - 1 := by
      have := (allow_fst_true _ _).mp h2
      rwa [e2] at this
    have hs2 : allow (⟨(refill l t).tokens - 1, t⟩ : Limiter) t =
        (true, ⟨(refill l t).tokens - 1 - 1, t⟩) := by
      have := allow_state_true ⟨(refill l t).tokens - 1, t⟩ t
        (by rw [e2]; exact hge2)
      rwa [e2] at this
    rw [hs2] at h3 h4
    have e3 : (refill ⟨(refill l t).tokens - 1 - 1, t⟩ t).tokens =
        (refill l t).tokens - 1 - 1 := by
      rw [refill_tokens]
      show min 3 ((refill l t).tokens - 1 - 1 + (t - t)) =
        (refill l t).tokens - 1 - 1
      rw [show ((refill l t).tokens - 1 - 1 + (t - t) : ℚ) =
        (refill l t).tokens - 1 - 1 from by ring]
      exact min_eq_right (by linarith)
    have hge3 : 1 ≤ (refill l t).tokens - 1 - 1 := by
      have := (allow_fst_true _ _).mp h3
      rwa [e3] at this
    have hs3 : allow (⟨(refill l t).tokens - 1 - 1, t⟩ : Limiter) t =
        (true, ⟨(refill l t).tokens - 1 - 1 - 1, t⟩) := by
      have := allow_state_true ⟨(refill l t).tokens - 1 - 1, t⟩ t
        (by rw [e3]; exact hge3)
      rwa [e3] at this
    rw [hs3] at h4
    have e4 : (refill ⟨(refill l t).tokens - 1 - 1 - 1, t⟩ t).tokens =
        (refill l t).tokens - 1 - 1 - 1 := by
      rw [refill_tokens]
      show min 3 ((refill l t).tokens - 1 - 1 - 1 + (t - t)) =
        (refill l t).tokens - 1 - 1 - 1
      rw [show ((refill l t).tokens - 1 - 1 - 1 + (t - t) : ℚ) =
        (refill l t).tokens - 1 - 1 - 1 from by ring]
      exact min_eq_right (by linarith)
    have hge4 : 1 ≤ (refill l t).tokens - 1 - 1 - 1 := by
      have := (allow_fst_true _ _).mp h4
      rwa [e4] at this
    linarith

/-! ## Registry lemmas -/

lemma lookupV_cons_self (ip : String) (w : Visitor) (rest : Registry) :
    lookupV ((ip, w) :: rest) ip = some w := by
  simp [lookupV]

lemma lookupV_none_iff (reg : Registry) (ip : String) :
    lookupV reg ip = none ↔ ip ∉ reg.map Prod.fst := by
  induction reg with
  | nil => simp [lookupV]
  | cons p rest ih =>
    by_cases hp : p.1 = ip
    · simp [lookupV, hp]
    · have hne : ¬ ip = p.1 := fun h => hp h.symm
      rw [show lookupV (p :: rest) ip = lookupV rest ip from by
        simp [lookupV, hp]]
      simp only [List.map_cons, List.mem_cons, not_or]
      rw [ih]
      exact ⟨fun h => ⟨hne, h⟩, fun h => h.2⟩

lemma lookupV_some_mem (reg : Registry) (ip : String) (v : Visitor)
    (h : lookupV reg ip = some v) : (ip, v) ∈ reg := by
  induction reg with
  | nil => simp [lookupV] at h
  | cons p rest ih =>
    by_cases hp : p.1 = ip
    · simp [lookupV, hp] at h
      have hpv : (ip, v) = p := by rw [← hp, ← h]
      rw [hpv]
      exact List.mem_cons_self _ _
    · simp [lookupV, hp] at h
      exact List.mem_cons_of_mem _ (ih h)

lemma setLimiter_cons_self (reg : Registry) (ip : String) (w : Visitor)
    (l : Limiter) :
    setLimiter ((ip, w) :: reg) ip l = (ip, ⟨l, w.lastSeen⟩) :: setLimiter reg ip l := by
  simp [setLimiter]

lemma setLimiter_of_lookup_none (reg : Registry) (ip : String)
    (h : lookupV reg ip = none) :
    ∀ l : Limiter, setLimiter reg ip l = reg := by
  induction reg with
  | nil => intro l; rfl
  | cons p rest ih =>
    intro l
    by_cases hp : p.1 = ip
    · simp [lookupV, hp] at h
    · simp only [lookupV, hp, if_neg] at h
      simp [setLimiter, hp] at ih ⊢
      exact ih h l

lemma setLimiter_updateEntry (reg : Registry) (ip : String) (v : Visitor)
    (l' : Limiter) :
    setLimiter (updateEntry reg ip v) ip l' = updateEntry reg ip ⟨l', v.lastSeen⟩ := by
  unfold setLimiter updateEntry
  rw [List.map_map]
  refine List.map_congr_left (fun p _ => ?_)
  by_cases hp : p.1 = ip
  · simp [hp]
  · simp [hp]

lemma updateEntry_cons_self (rest : Registry) (ip : String) (w v : Visitor) :
    updateEntry ((ip, w) :: rest) ip v = (ip, v) :: updateEntry rest ip v := by
  simp [updateEntry]

lemma getVisitor_none (reg : Registry) (ip : String) (now : ℚ)
    (h : lookupV reg ip = none) :
    getVisitor reg ip now = (newLimiter now, (ip, ⟨newLimiter now, now⟩) :: reg) := by
  simp [getVisitor, h]

lemma getVisitor_some (reg : Registry) (ip : String) (now : ℚ) (v : Visitor)
    (h : lookupV reg ip = some v) :
    getVisitor reg ip now = (v.limiter, updateEntry reg ip ⟨v.limiter, now⟩) := by
  simp [getVisitor, h]

lemma rateLimitCheck_fresh (reg : Registry) (ip : String) (now : ℚ)
    (h : lookupV reg ip = none) :
    rateLimitCheck reg ip now =
      ((allow (newLimiter now) now).1,
        (ip, ⟨(allow (newLimiter now) now).2, now⟩) :: reg) := by
  simp only [rateLimitCheck, getVisitor_none reg ip now h, setLimiter_cons_self,
    setLimiter_of_lookup_none reg ip h]

lemma rateLimitCheck_found (reg : Registry) (ip : String) (now : ℚ)
    (l : Limiter) (s : ℚ) (h : lookupV reg ip = some ⟨l, s⟩) :
    rateLimitCheck reg ip now =
      ((allow l now).1, updateEntry reg ip ⟨(allow l now).2, now⟩) := by
  simp only [rateLimitCheck, getVisitor_some reg ip now ⟨l, s⟩ h,
    setLimiter_updateEntry]

lemma rateLimitMiddleware_of_check (reg : Registry) (ip : String) (now : ℚ)
    (next : Response) (b : Bool) (reg' : Registry)
    (h : rateLimitCheck reg ip now = (b, reg')) :
    rateLimitMiddleware reg ip now next =
      (if b then next else ⟨429, Body.empty⟩, reg') := by
  unfold rateLimitMiddleware
  rw [h]
  cases b
  · rfl
  · rfl

/-! ## Theorem about a fresh-bucket burst (C2) -/

/-- C2.  For a client address with no existing visitor entry, four requests
inside the same sub-second burst (monotone times, all within less than one
second of the first): the first three are admitted — the wrapped handler's
response passes through — and the fourth is rejected with status 429 and an
empty body. -/
theorem fresh_bucket_burst (reg : Registry) (ip : String) (next : Response)
    (t0 t1 t2 t3 : ℚ) (hfresh : lookupV reg ip = none)
    (h01 : t0 ≤ t1) (h12 : t1 ≤ t2) (h23 : t2 ≤ t3) (hsub : t3 - t0 < 1) :
    serveSeq reg ip next [t0, t1, t2, t3] =
      [next, next, next, ⟨429, Body.empty⟩] := by
  have a0 : allow (newLimiter t0) t0 = (true, ⟨2, t0⟩) := by
    have e : (refill (newLimiter t0) t0).tokens = 3 := by
      rw [refill_tokens]
      show min 3 (3 + (t0 - t0)) = 3
      rw [show (3 + (t0 - t0) : ℚ) = 3 from by ring]
      exact min_self 3
    rw [allow_state_true _ _ (by rw [e]; norm_num), e]
    norm_num
  have hc0 : rateLimitCheck reg ip t0 = (true, (ip, ⟨⟨2, t0⟩, t0⟩) :: reg) := by
    rw [rateLimitCheck_fresh reg ip t0 hfresh, a0]
  have hm0 : rateLimitMiddleware reg ip t0 next =
      (next, (ip, ⟨⟨2, t0⟩, t0⟩) :: reg) := by
    rw [rateLimitMiddleware_of_check reg ip t0 next true _ hc0]
    rfl
  have a1 : allow ⟨2, t0⟩ t1 = (true, ⟨1 + (t1 - t0), t1⟩) := by
    have e : (refill ⟨2, t0⟩ t1).tokens = 2 + (t1 - t0) := by
      rw [refill_tokens]
      show min 3 (2 + (t1 - t0)) = 2 + (t1 - t0)
      exact min_eq_right (by linarith)
    rw [allow_state_true _ _ (by rw [e]; linarith), e]
    simp only [Prod.mk.injEq, Limiter.mk.injEq, true_and, and_true]
    ring
  have hc1 : rateLimitCheck ((ip, ⟨⟨2, t0⟩, t0⟩) :: reg) ip t1 =
      (true, (ip, ⟨⟨1 + (t1 - t0), t1⟩, t1⟩) ::
        updateEntry reg ip ⟨⟨1 + (t1 - t0), t1⟩, t1⟩) := by
    rw [rateLimitCheck_found _ ip t1 ⟨2, t0⟩ t0 (lookupV_cons_self ip _ reg),
      a1, updateEntry_cons_self]
  have hm1 : rateLimitMiddleware ((ip, ⟨⟨2, t0⟩, t0⟩) :: reg) ip t1 next =
      (next, (ip, ⟨⟨1 + (t1 - t0), t1⟩, t1⟩) ::
        updateEntry reg ip ⟨⟨1 + (t1 - t0), t1⟩, t1⟩) := by
    rw [rateLimitMiddleware_of_check _ ip t1 next true _ hc1]
    rfl
  have a2 : allow ⟨1 + (t1 - t0), t1⟩ t2 = (true, ⟨t2 - t0, t2⟩) := by
    have e : (refill ⟨1 + (t1 - t0), t1⟩ t2).tokens = t2 - t0 + 1 := by
      rw [refill_tokens]
      show min 3 (1 + (t1 - t0) + (t2 - t1)) = t2 - t0 + 1
      rw [show (1 + (t1 - t0) + (t2 - t1) : ℚ) = t2 - t0 + 1 from by ring]
      exact min_eq_right (by linarith)
    rw [allow_state_true _ _ (by rw [e]; linarith), e]
    simp only [Prod.mk.injEq, Limiter.mk.injEq, true_and, and_true]
    ring
  have hc2 : rateLimitCheck ((ip, ⟨⟨1 + (t1 - t0), t1⟩, t1⟩) ::
        updateEntry reg ip ⟨⟨1 + (t1 - t0), t1⟩, t1⟩) ip t2 =
      (true, (ip, ⟨⟨t2 - t0, t2⟩, t2⟩) ::
        updateEntry (updateEntry reg ip ⟨⟨1 + (t1 - t0), t1⟩, t1⟩) ip
          ⟨⟨t2 - t0, t2⟩, t2⟩) := by
    rw [rateLimitCheck_found _ ip t2 ⟨1 + (t1 - t0), t1⟩ t1
      (lookupV_cons_self ip _ _), a2, updateEntry_cons_self]
  have hm2 : rateLimitMiddleware ((ip, ⟨⟨1 + (t1 - t0), t1⟩, t1⟩) ::
        updateEntry reg ip ⟨⟨1 + (t1 - t0), t1⟩, t1⟩) ip t2 next =
      (next, (ip, ⟨⟨t2 - t0, t2⟩, t2⟩) ::
        updateEntry (updateEntry reg ip ⟨⟨1 + (t1 - t0), t1⟩, t1⟩) ip
          ⟨⟨t2 - t0, t2⟩, t2⟩) := by
    rw [rateLimitMiddleware_of_check _ ip t2 next true _ hc2]
    rfl
  have a3 : allow ⟨t2 - t0, t2⟩ t3 = (false, refill ⟨t2 - t0, t2⟩ t3) := by
    refine allow_state_false _ _ ?_
    have e : (refill ⟨t2 - t0, t2⟩ t3).tokens = t3 - t0 := by
      rw [refill_tokens]
      show min 3 (t2 - t0 + (t3 - t2)) = t3 - t0
      rw [show (t2 - t0 + (t3 - t2) : ℚ) = t3 - t0 from by ring]
      exact min_eq_right (by linarith)
    rw [e]
    intro hc
    linarith
  have hc3 : rateLimitCheck ((ip, ⟨⟨t2 - t0, t2⟩, t2⟩) ::
        updateEntry (updateEntry reg ip ⟨⟨1 + (t1 - t0), t1⟩, t1⟩) ip
          ⟨⟨t2 - t0, t2⟩, t2⟩) ip t3 =
      (false, updateEntry ((ip, ⟨⟨t2 - t0, t2⟩, t2⟩) ::
        updateEntry (updateEntry reg ip ⟨⟨1 + (t1 - t0), t1⟩, t1⟩) ip
          ⟨⟨t2 - t0, t2⟩, t2⟩) ip ⟨refill ⟨t2 - t0, t2⟩ t3, t3⟩) := by
    rw [rateLimitCheck_found _ ip t3 ⟨t2 - t0, t2⟩ t2
      (lookupV_cons_self ip _ _), a3]
  have hm3 : rateLimitMiddleware ((ip, ⟨⟨t2 - t0, t2⟩, t2⟩) ::
        updateEntry (updateEntry reg ip ⟨⟨1 + (t1 - t0), t1⟩, t1⟩) ip
          ⟨⟨t2 - t0, t2⟩, t2⟩) ip t3 next =
      (⟨429, Body.empty⟩, updateEntry ((ip, ⟨⟨t2 - t0, t2⟩, t2⟩) ::
        updateEntry (updateEntry reg ip ⟨⟨1 + (t1 - t0), t1⟩, t1⟩) ip
          ⟨⟨t2 - t0, t2⟩, t2⟩) ip ⟨refill ⟨t2 - t0, t2⟩ t3, t3⟩) := by
    rw [rateLimitMiddleware_of_check _ ip t3 next false _ hc3]
    rfl
  simp [serveSeq, hm0, hm1, hm2, hm3]

/-- Witness for C2: a fresh client in an empty registry firing four
requests at the same instant gets 200, 200, 200, then 429 with empty
body. -/
theorem fresh_bucket_burst_witness :
    serveSeq [] "192.0.2.1:1234" ⟨200, Body.empty⟩ [0, 0, 0, 0] =
      [⟨200, Body.empty⟩, ⟨200, Body.empty⟩, ⟨200, Body.empty⟩,
        ⟨429, Body.empty⟩] :=
  fresh_bucket_burst [] "192.0.2.1:1234" ⟨200, Body.empty⟩ 0 0 0 0 rfl
    (by norm_num) (by norm_num) (by norm_num) (by norm_num)

/-! ## Key-uniqueness machinery for the visitors map -/

lemma keys_updateEntry (reg : Registry) (ip : String) (v : Visitor) :
    (updateEntry reg ip v).map Prod.fst = reg.map Prod.fst := by
  unfold updateEntry
  rw [List.map_map]
  refine List.map_congr_left (fun p _ => ?_)
  by_cases hp : p.1 = ip
  · simp [hp]
  · simp [hp]

lemma mem_unique_of_nodup_keys (reg : Registry)
    (hnd : (reg.map Prod.fst).Nodup) (ip : String) (v w : Visitor)
    (hv : (ip, v) ∈ reg) (hw : (ip, w) ∈ reg) : v = w := by
  induction reg with
  | nil => cases hv
  | cons p rest ih =>
    rw [List.map_cons, List.nodup_cons] at hnd
    rcases List.mem_cons.mp hv with hv1 | hv2
    · rcases List.mem_cons.mp hw with hw1 | hw2
      · exact congrArg Prod.snd (hv1.trans hw1.symm)
      · exfalso
        have hmem' : ip ∈ rest.map Prod.fst :=
          List.mem_map_of_mem Prod.fst hw2
        have hp1 : p.1 = ip := by rw [← hv1]
        exact hnd.1 (hp1 ▸ hmem')
    · rcases List.mem_cons.mp hw with hw1 | hw2
      · exfalso
        have hmem' : ip ∈ rest.map Prod.fst :=
          List.mem_map_of_mem Prod.fst hv2
        have hp1 : p.1 = ip := by rw [← hw1]
        exact hnd.1 (hp1 ▸ hmem')
      · exact ih hnd.2 hv2 hw2

lemma mem_updateEntry_self (reg : Registry) (ip : String) (v w : Visitor)
    (hmem : (ip, w) ∈ reg) : (ip, v) ∈ updateEntry reg ip v := by
  unfold updateEntry
  have h := List.mem_map_of_mem (fun p => if p.1 = ip then (p.1, v) else p) hmem
  simpa using h

lemma mem_updateEntry_key (reg : Registry) (ip : String) (v u : Visitor)
    (h : (ip, u) ∈ updateEntry reg ip v) : u = v := by
  unfold updateEntry at h
  rcases List.mem_map.mp h with ⟨p, _, himg⟩
  by_cases hpk : p.1 = ip
  · rw [if_pos hpk] at himg
    exact (congrArg Prod.snd himg).symm
  · rw [if_neg hpk] at himg
    exact absurd (congrArg Prod.fst himg) hpk

lemma keys_rateLimitCheck_nodup (reg : Registry) (ip : String) (now : ℚ)
    (hnd : (reg.map Prod.fst).Nodup) :
    (((rateLimitCheck reg ip now).2).map Prod.fst).Nodup := by
  cases hl : lookupV reg ip with
  | none =>
    rw [rateLimitCheck_fresh reg ip now hl, List.map_cons, List.nodup_cons]
    exact ⟨(lookupV_none_iff reg ip).mp hl, hnd⟩
  | some v =>
    cases v with
    | mk l s =>
      rw [rateLimitCheck_found reg ip now l s hl, keys_updateEntry]
      exact hnd

lemma keys_cleanup_nodup (reg : Registry) (now : ℚ)
    (hnd : (reg.map Prod.fst).Nodup) :
    ((cleanupVisitorsTick reg now).map Prod.fst).Nodup := by
  exact hnd.sublist (List.Sublist.map Prod.fst (List.filter_sublist reg))

/-! ## Theorems about the registry invariant and the sweep (C5, C8, C9) -/

/-- C5.  In every reachable state of the visitors registry — empty at
startup, then evolved by arbitrary interleavings of the atomic
lock-protected operations (the `getVisitor` + `Allow` critical section of a
request, and the cleanup pass) — the map holds at most one entry per IP
string.  Each get-or-insert is one atomic step of `Step`, so two
concurrent first-time requests from the same IP resolve to one entry. -/
theorem registry_at_most_one_entry_per_ip (reg : Registry)
    (h : Reachable reg) :
    ((reg.map Prod.fst).Nodup) ∧
    ∀ ip : String, (reg.map Prod.fst).count ip ≤ 1 := by
  have hnd : (reg.map Prod.fst).Nodup := by
    induction h with
    | refl => simp
    | tail _ hstep ih =>
      cases hstep with
      | request ip now => exact keys_rateLimitCheck_nodup _ ip now ih
      | cleanup now => exact keys_cleanup_nodup _ now ih
  exact ⟨hnd, fun ip => List.nodup_iff_count_le_one.mp hnd ip⟩

/-- Witness for C5: the state after one request step from the empty
registry is reachable and satisfies the invariant. -/
theorem registry_at_most_one_entry_per_ip_witness :
    ((((rateLimitCheck [] "192.0.2.1:80" 0).2).map Prod.fst).Nodup) ∧
    ∀ ip : String,
      (((rateLimitCheck [] "192.0.2.1:80" 0).2).map Prod.fst).count ip ≤ 1 :=
  registry_at_most_one_entry_per_ip _
    (Relation.ReflTransGen.single (Step.request [] "192.0.2.1:80" 0))

/-- C8.  One tick of the eviction sweep (the locked pass the forever-loop
runs after each one-minute sleep) removes exactly the entries whose
last-seen timestamp lies more than three minutes (180 s) in the past: an
entry untouched for more than 3 minutes is absent afterwards — no entry for
its IP survives — while an entry touched within the last 3 minutes
survives unchanged. -/
theorem cleanup_evicts_stale_keeps_fresh (reg : Registry) (now : ℚ)
    (ip : String) (v : Visitor)
    (hnd : (reg.map Prod.fst).Nodup) (hmem : (ip, v) ∈ reg) :
    (180 < now - v.lastSeen →
      ∀ w : Visitor, (ip, w) ∉ cleanupVisitorsTick reg now) ∧
    (now - v.lastSeen ≤ 180 → (ip, v) ∈ cleanupVisitorsTick reg now) := by
  constructor
  · intro hstale w hwmem
    have hw := List.mem_filter.mp hwmem
    have hvw : v = w := mem_unique_of_nodup_keys reg hnd ip v w hmem hw.1
    have hpred := hw.2
    simp only [Bool.not_eq_true', decide_eq_false_iff_not] at hpred
    rw [← hvw] at hpred
    exact hpred hstale
  · intro hfreshv
    apply List.mem_filter.mpr
    refine ⟨hmem, ?_⟩
    simp only [Bool.not_eq_true', decide_eq_false_iff_not]
    exact not_lt.mpr hfreshv

/-- Witness for C8: with one entry last seen at time 0, a sweep at time 200
(stale by more than 180 s) has removed it, while a sweep at time 100 keeps
it. -/
theorem cleanup_evicts_stale_keeps_fresh_witness :
    ("a", (⟨⟨3, 0⟩, 0⟩ : Visitor)) ∉
      cleanupVisitorsTick [("a", ⟨⟨3, 0⟩, 0⟩)] 200 ∧
    ("a", (⟨⟨3, 0⟩, 0⟩ : Visitor)) ∈
      cleanupVisitorsTick [("a", ⟨⟨3, 0⟩, 0⟩)] 100 :=
  ⟨(cleanup_evicts_stale_keeps_fresh [("a", ⟨⟨3, 0⟩, 0⟩)] 200 "a" ⟨⟨3, 0⟩, 0⟩
      (by simp) (by simp)).1
      (by show (180:ℚ) < 200 - 0; norm_num) ⟨⟨3, 0⟩, 0⟩,
   (cleanup_evicts_stale_keeps_fresh [("a", ⟨⟨3, 0⟩, 0⟩)] 100 "a" ⟨⟨3, 0⟩, 0⟩
      (by simp) (by simp)).2
      (by show (100:ℚ) - 0 ≤ 180; norm_num)⟩

/-- C9.  Every request from an IP sets that visitor's last-seen timestamp
to the request time — `getVisitor` does so before `limiter.Allow()` runs,
hence also for requests the limiter then rejects with 429 (the post-state
below is the same whichever way the admission decision went).  Hence after
a request at time `now`, a sweep at any `T` with `T - now ≤ 180` still
finds an entry for the IP: a client that keeps requesting at least every 3
minutes is never evicted, even if every request is rate-limited. -/
theorem request_refreshes_lastSeen (reg : Registry) (ip : String) (now : ℚ) :
    (∃ v : Visitor, (ip, v) ∈ (rateLimitCheck reg ip now).2 ∧
      v.lastSeen = now) ∧
    (∀ v : Visitor, (ip, v) ∈ (rateLimitCheck reg ip now).2 →
      v.lastSeen = now) ∧
    (∀ T : ℚ, T - now ≤ 180 →
      ∃ v : Visitor,
        (ip, v) ∈ cleanupVisitorsTick (rateLimitCheck reg ip now).2 T) := by
  cases hl : lookupV reg ip with
  | none =>
    rw [rateLimitCheck_fresh reg ip now hl]
    refine ⟨⟨⟨(allow (newLimiter now) now).2, now⟩,
      List.mem_cons_self _ _, rfl⟩, ?_, ?_⟩
    · intro v hv
      rcases List.mem_cons.mp hv with h1 | h2
      · have h2 : v = ⟨(allow (newLimiter now) now).2, now⟩ :=
          congrArg Prod.snd h1
        rw [h2]
      · exact absurd (List.mem_map_of_mem Prod.fst h2)
          ((lookupV_none_iff reg ip).mp hl)
    · intro T hT
      refine ⟨⟨(allow (newLimiter now) now).2, now⟩, ?_⟩
      apply List.mem_filter.mpr
      refine ⟨List.mem_cons_self _ _, ?_⟩
      simp only [Bool.not_eq_true', decide_eq_false_iff_not]
      show ¬ 180 < T - now
      exact not_lt.mpr hT
  | some v =>
    cases v with
    | mk l s =>
      rw [rateLimitCheck_found reg ip now l s hl]
      have hmem0 : (ip, (⟨l, s⟩ : Visitor)) ∈ reg :=
        lookupV_some_mem reg ip ⟨l, s⟩ hl
      have hself : (ip, (⟨(allow l now).2, now⟩ : Visitor)) ∈
          updateEntry reg ip ⟨(allow l now).2, now⟩ :=
        mem_updateEntry_self reg ip ⟨(allow l now).2, now⟩ ⟨l, s⟩ hmem0
      refine ⟨⟨⟨(allow l now).2, now⟩, hself, rfl⟩, ?_, ?_⟩
      · intro u hu
        rw [mem_updateEntry_key reg ip ⟨(allow l now).2, now⟩ u hu]
      · intro T hT
        refine ⟨⟨(allow l now).2, now⟩, ?_⟩
        apply List.mem_filter.mpr
        refine ⟨hself, ?_⟩
        simp only [Bool.not_eq_true', decide_eq_false_iff_not]
        show ¬ 180 < T - now
        exact not_lt.mpr hT

/-- Witness for C9: after a request at time 0 from a fresh client, a sweep
at time 100 still finds the entry. -/
theorem request_refreshes_lastSeen_witness :
    ∃ v : Visitor,
      ("198.51.100.7:4242", v) ∈
        cleanupVisitorsTick (rateLimitCheck [] "198.51.100.7:4242" 0).2 100 :=
  (request_refreshes_lastSeen [] "198.51.100.7:4242" 0).2.2 100 (by norm_num)

end DadJokes
